import Mathlib

/-!
Verification development for the `ccenv-cli` ("claude-env" / `ccx`) repository.

The repository manages named provider profiles (stored in one JSON document,
credentials encrypted at rest with AES-256-CBC) and renders shell activation /
reset scripts for five shell dialects.  This file gives a shallow embedding of
the core data model and operations:

* `src/types.ts`            → `Profile`, `ProfileConfig`, `EnvVars`, `ShellType`
* `src/lib/shell.ts`        → `generateEnvVars`, `generateShellScript` (and the
  per-dialect generators), `generateResetScript`, `detectShell`
* `src/lib/config.ts`       → `encrypt`, `decrypt`, `getProfile`, `saveProfile`,
  `deleteProfile`, `getActiveProfile`, `setActiveProfile`

JavaScript objects used as string-keyed records are embedded as association
lists in key-insertion order (`objLookup`, `objSet`, `objAssign`, `objDelete`
mirror property read, property write, `Object.assign` and `delete`).  Ambient
effects are passed explicitly: the clock (`new Date().toISOString()`) becomes a
`now : String` argument, `process.env.SHELL` / `process.env.ComSpec` /
`process.platform` become arguments of `detectShell`, and the random IV of
`crypto.randomBytes(16)` becomes an `iv` argument.  The AES-256 block cipher
itself is the Node `crypto` primitive, external to the repository; it is
embedded as an abstract pair of byte-block maps `E`/`D` that are mutually
inverse and length/byte-range preserving, which is the contract of
AES-256-CBC block encryption under one fixed key.  Everything around it
(UTF-8, PKCS#7 padding, CBC chaining, hex, the `iv:ciphertext` record format
and the catch-and-return-input fallback) is embedded concretely.
-/

set_option maxRecDepth 4000

namespace Ccx

/-- Single-quote character (codepoint 39), used by the dialect escapers. -/
def qc : Char := Char.ofNat 39

/-- Single-quote as a one-character string. -/
def sq : String := "\x27"

/-- Shell dialects supported by the generator (`ShellType` in `types.ts`). -/
inductive ShellType where
  | bash
  | zsh
  | fish
  | powershell
  | cmd
deriving DecidableEq

/-- Environment-variable set handed from `generateEnvVars` to the per-dialect
renderers (`EnvVars` in `types.ts`): a JavaScript object embedded as an
association list in insertion order. -/
abbrev EnvVars : Type := List (String × String)

/-- A stored provider profile (`Profile` in `types.ts`).  Optional fields of
the TypeScript interface become `Option`; `apiKey` holds either plaintext (in
memory) or the encrypted record (at rest). -/
structure Profile where
  name : String
  description : Option String
  provider : String
  baseUrl : String
  model : Option String
  apiKey : Option String
  clearAnthropicKey : Bool
  extraEnv : Option (List (String × String))
  createdAt : String
  updatedAt : String
deriving DecidableEq

/-- The `settings` object of the persisted document. -/
structure Settings where
  encryptionEnabled : Bool
  defaultShell : ShellType
deriving DecidableEq

/-- The whole persisted configuration document (`ProfileConfig` in
`types.ts`): profile map, active-profile pointer, settings. -/
structure ProfileConfig where
  profiles : List (String × Profile)
  activeProfile : Option String
  settings : Settings
deriving DecidableEq

/-- JavaScript string truthiness for an optional string field:
`undefined` and the empty string are falsy. -/
def truthy : Option String → Bool
  | some s => s != ""
  | none => false

/-- Property read on a JavaScript object embedded as an association list. -/
def objLookup {α : Type} : List (String × α) → String → Option α
  | [], _ => none
  | kv :: rest, k => if kv.1 = k then some kv.2 else objLookup rest k

/-- Property write `o[k] = v`: overwrite in place if present, else append
(JavaScript objects keep the original key position on overwrite). -/
def objSet {α : Type} : List (String × α) → String → α → List (String × α)
  | [], k, v => [(k, v)]
  | kv :: rest, k, v => if kv.1 = k then (k, v) :: rest else kv :: objSet rest k v

/-- `Object.assign(base, extra)`: fold the entries of `extra` into `base`. -/
def objAssign {α : Type} (base : List (String × α)) (extra : List (String × α)) :
    List (String × α) :=
  extra.foldl (fun acc kv => objSet acc kv.1 kv.2) base

/-- `delete o[k]`: drop the binding for `k` (keys of an embedded object are
unique, so filtering is property deletion). -/
def objDelete {α : Type} (l : List (String × α)) (k : String) : List (String × α) :=
  l.filter fun kv => kv.1 ≠ k

/-! ## Shell script generation (`src/lib/shell.ts`) -/

/-- `generateEnvVars` from `shell.ts`: build the environment-variable set of a
profile — base URL, auth token (the API key), model, the empty-string
clear-signal for `ANTHROPIC_API_KEY` when `clearAnthropicKey` is set, then
`Object.assign` of `extraEnv`. -/
def generateEnvVars (profile : Profile) : EnvVars :=
  let env0 : EnvVars := []
  let env1 := if profile.baseUrl != "" then objSet env0 "ANTHROPIC_BASE_URL" profile.baseUrl else env0
  let env2 := if truthy profile.apiKey then objSet env1 "ANTHROPIC_AUTH_TOKEN" (profile.apiKey.getD "") else env1
  let env3 := if truthy profile.model then objSet env2 "ANTHROPIC_MODEL" (profile.model.getD "") else env2
  let env4 := if profile.clearAnthropicKey then objSet env3 "ANTHROPIC_API_KEY" "" else env3
  match profile.extraEnv with
  | some extra => objAssign env4 extra
  | none => env4

/-- Global regex replace of one character, modelling `value.replace(/c/g, rep)`. -/
def jsReplaceChar (value : String) (c : Char) (rep : String) : String :=
  String.mk (value.data.flatMap fun d => if d = c then rep.data else [d])

/-- Bash/zsh escaping from `generateBashScript`: each single quote becomes
quote backslash quote quote. -/
def escapeBash (value : String) : String :=
  jsReplaceChar value qc (sq ++ "\\" ++ sq ++ sq)

/-- Fish escaping from `generateFishScript`: each single quote becomes
backslash quote. -/
def escapeFish (value : String) : String :=
  jsReplaceChar value qc ("\\" ++ sq)

/-- PowerShell escaping from `generatePowerShellScript`: each single quote is
doubled. -/
def escapePowerShell (value : String) : String :=
  jsReplaceChar value qc (sq ++ sq)

/-- Loop body of `generateBashScript`: empty value → `unset`, otherwise a
single-quoted `export`. -/
def bashLine (kv : String × String) : String :=
  if kv.2 = "" then "unset " ++ kv.1
  else "export " ++ kv.1 ++ "=" ++ sq ++ escapeBash kv.2 ++ sq

/-- Loop body of `generateFishScript`. -/
def fishLine (kv : String × String) : String :=
  if kv.2 = "" then "set -e " ++ kv.1
  else "set -gx " ++ kv.1 ++ " " ++ sq ++ escapeFish kv.2 ++ sq

/-- Loop body of `generatePowerShellScript`. -/
def powershellLine (kv : String × String) : String :=
  if kv.2 = "" then "Remove-Item Env:\\" ++ kv.1 ++ " -ErrorAction SilentlyContinue"
  else "$env:" ++ kv.1 ++ " = " ++ sq ++ escapePowerShell kv.2 ++ sq

/-- Loop body of `generateCmdScript` (unquoted values). -/
def cmdLine (kv : String × String) : String :=
  if kv.2 = "" then "set " ++ kv.1 ++ "="
  else "set " ++ kv.1 ++ "=" ++ kv.2

/-- Line list built by `generateBashScript`: header comments, one line per
environment entry, then the `CCX_ACTIVE_PROFILE` footer. -/
def bashScriptLines (env : EnvVars) (profile : Profile) (now : String) : List String :=
  ["# Claude Env - Profile: " ++ profile.name, "# Generated: " ++ now, ""]
    ++ env.map bashLine
    ++ ["", "# Active profile: " ++ profile.name,
        "export CCX_ACTIVE_PROFILE=" ++ sq ++ profile.name ++ sq]

/-- Line list built by `generateFishScript`. -/
def fishScriptLines (env : EnvVars) (profile : Profile) (now : String) : List String :=
  ["# Claude Env - Profile: " ++ profile.name, "# Generated: " ++ now, ""]
    ++ env.map fishLine
    ++ ["", "set -gx CCX_ACTIVE_PROFILE " ++ sq ++ profile.name ++ sq]

/-- Line list built by `generatePowerShellScript`. -/
def powershellScriptLines (env : EnvVars) (profile : Profile) (now : String) : List String :=
  ["# Claude Env - Profile: " ++ profile.name, "# Generated: " ++ now, ""]
    ++ env.map powershellLine
    ++ ["", "$env:CCX_ACTIVE_PROFILE = " ++ sq ++ profile.name ++ sq]

/-- Line list built by `generateCmdScript`. -/
def cmdScriptLines (env : EnvVars) (profile : Profile) (now : String) : List String :=
  ["@REM Claude Env - Profile: " ++ profile.name, "@REM Generated: " ++ now, ""]
    ++ env.map cmdLine
    ++ ["", "set CCX_ACTIVE_PROFILE=" ++ profile.name]

/-- `generateBashScript` from `shell.ts` (the ambient clock is the `now`
argument). -/
def generateBashScript (env : EnvVars) (profile : Profile) (now : String) : String :=
  String.intercalate "\n" (bashScriptLines env profile now)

/-- `generateFishScript` from `shell.ts`. -/
def generateFishScript (env : EnvVars) (profile : Profile) (now : String) : String :=
  String.intercalate "\n" (fishScriptLines env profile now)

/-- `generatePowerShellScript` from `shell.ts`. -/
def generatePowerShellScript (env : EnvVars) (profile : Profile) (now : String) : String :=
  String.intercalate "\n" (powershellScriptLines env profile now)

/-- `generateCmdScript` from `shell.ts`. -/
def generateCmdScript (env : EnvVars) (profile : Profile) (now : String) : String :=
  String.intercalate "\n" (cmdScriptLines env profile now)

/-- `generateShellScript` from `shell.ts`: compute the environment set once and
dispatch on the dialect (the `default` branch of the `switch` is unreachable
for the closed `ShellType`). -/
def generateShellScript (profile : Profile) (shell : ShellType) (now : String) : String :=
  let env := generateEnvVars profile
  match shell with
  | ShellType.bash => generateBashScript env profile now
  | ShellType.zsh => generateBashScript env profile now
  | ShellType.fish => generateFishScript env profile now
  | ShellType.powershell => generatePowerShellScript env profile now
  | ShellType.cmd => generateCmdScript env profile now

/-- Line list of `generateShellScript` before the final `join`, per dialect. -/
def scriptLines (profile : Profile) (shell : ShellType) (now : String) : List String :=
  let env := generateEnvVars profile
  match shell with
  | ShellType.bash => bashScriptLines env profile now
  | ShellType.zsh => bashScriptLines env profile now
  | ShellType.fish => fishScriptLines env profile now
  | ShellType.powershell => powershellScriptLines env profile now
  | ShellType.cmd => cmdScriptLines env profile now

/-- The per-dialect assignment statement for one environment entry (the
non-empty-value branch of each loop body). -/
def assignStmt (shell : ShellType) (k v : String) : String :=
  match shell with
  | ShellType.bash => "export " ++ k ++ "=" ++ sq ++ escapeBash v ++ sq
  | ShellType.zsh => "export " ++ k ++ "=" ++ sq ++ escapeBash v ++ sq
  | ShellType.fish => "set -gx " ++ k ++ " " ++ sq ++ escapeFish v ++ sq
  | ShellType.powershell => "$env:" ++ k ++ " = " ++ sq ++ escapePowerShell v ++ sq
  | ShellType.cmd => "set " ++ k ++ "=" ++ v

/-- The fixed tracked-variable list of `generateResetScript`. -/
def varsToUnset : List String :=
  ["ANTHROPIC_BASE_URL", "ANTHROPIC_AUTH_TOKEN", "ANTHROPIC_MODEL", "CCX_ACTIVE_PROFILE"]

/-- `generateResetScript` from `shell.ts`: one clear statement per tracked
variable, joined with newlines, in the dialect's clear form. -/
def generateResetScript (shell : ShellType) : String :=
  match shell with
  | ShellType.bash => String.intercalate "\n" (varsToUnset.map fun v => "unset " ++ v)
  | ShellType.zsh => String.intercalate "\n" (varsToUnset.map fun v => "unset " ++ v)
  | ShellType.fish => String.intercalate "\n" (varsToUnset.map fun v => "set -e " ++ v)
  | ShellType.powershell =>
      String.intercalate "\n"
        (varsToUnset.map fun v => "Remove-Item Env:\\" ++ v ++ " -ErrorAction SilentlyContinue")
  | ShellType.cmd => String.intercalate "\n" (varsToUnset.map fun v => "set " ++ v ++ "=")

/-- JavaScript `a || b` over possibly-undefined environment strings: an
undefined or empty left operand falls through to the right. -/
def jsOr (a : Option String) (b : String) : String :=
  match a with
  | some s => if s = "" then b else s
  | none => b

/-- Substring test over character lists, modelling `String.prototype.includes`. -/
def containsSub (pat : List Char) : List Char → Bool
  | [] => pat.isEmpty
  | c :: rest => pat.isPrefixOf (c :: rest) || containsSub pat rest

/-- `s.includes(pat)` for JavaScript strings. -/
def strIncludes (s pat : String) : Bool := containsSub pat.data s.data

/-- `detectShell` from `shell.ts`: resolve `process.env.SHELL || process.env.ComSpec || ""`,
test dialect substrings in priority order, then fall back to the platform
check (`win32` → powershell) and finally to bash. -/
def detectShell (envShell envComSpec : Option String) (platform : String) : ShellType :=
  let shell := jsOr envShell (jsOr envComSpec "")
  if strIncludes shell "fish" then ShellType.fish
  else if strIncludes shell "zsh" then ShellType.zsh
  else if strIncludes shell "bash" then ShellType.bash
  else if strIncludes shell "powershell" || strIncludes shell "pwsh" then ShellType.powershell
  else if platform = "win32" then ShellType.powershell
  else ShellType.bash

/-! ## Credential cipher (`src/lib/config.ts`)

The pipeline of `encrypt`/`decrypt` around the AES block primitive:
UTF-8 bytes, PKCS#7 padding, CBC chaining, lowercase hex, and the
`hex(iv) : hex(ciphertext)` record format. -/

/-- UTF-8 encoding of one scalar value, as `Buffer.from(s, "utf8")` produces. -/
def utf8EncodeChar (c : Char) : List Nat :=
  let v := c.toNat
  if v < 128 then [v]
  else if v < 2048 then [192 + v / 64, 128 + v % 64]
  else if v < 65536 then [224 + v / 4096, 128 + v / 64 % 64, 128 + v % 64]
  else [240 + v / 262144, 128 + v / 4096 % 64, 128 + v / 64 % 64, 128 + v % 64]

/-- UTF-8 encoding of a character sequence. -/
def utf8Encode (cs : List Char) : List Nat := cs.flatMap utf8EncodeChar

/-- Unicode replacement character U+FFFD, emitted by Node's lossy UTF-8
decoding for malformed input. -/
def replChar : Char := Char.ofNat 65533

/-- Turn a decoded scalar value into a character, replacing invalid values. -/
def decodeScalar (v : Nat) : Char :=
  if Nat.isValidChar v then Char.ofNat v else replChar

/-- Fuelled lossy UTF-8 decoder (fuel bounds the number of decoded
characters; one byte or one maximal sequence is consumed per step;
malformed input yields replacement characters instead of failing, as Node's
`toString("utf8")` does). -/
def utf8DecodeAux : Nat → List Nat → List Char
  | 0, _ => []
  | _ + 1, [] => []
  | fuel + 1, b0 :: rest =>
    if b0 < 128 then decodeScalar b0 :: utf8DecodeAux fuel rest
    else if b0 < 192 then replChar :: utf8DecodeAux fuel rest
    else if b0 < 224 then
      if 128 ≤ rest.headD 0 ∧ rest.headD 0 < 192 then
        decodeScalar ((b0 - 192) * 64 + (rest.headD 0 - 128)) :: utf8DecodeAux fuel (rest.drop 1)
      else replChar :: utf8DecodeAux fuel rest
    else if b0 < 240 then
      if (128 ≤ rest.headD 0 ∧ rest.headD 0 < 192) ∧
          (128 ≤ (rest.drop 1).headD 0 ∧ (rest.drop 1).headD 0 < 192) then
        decodeScalar ((b0 - 224) * 4096 + (rest.headD 0 - 128) * 64 + ((rest.drop 1).headD 0 - 128))
          :: utf8DecodeAux fuel (rest.drop 2)
      else replChar :: utf8DecodeAux fuel rest
    else
      if (128 ≤ rest.headD 0 ∧ rest.headD 0 < 192) ∧
          (128 ≤ (rest.drop 1).headD 0 ∧ (rest.drop 1).headD 0 < 192) ∧
          (128 ≤ (rest.drop 2).headD 0 ∧ (rest.drop 2).headD 0 < 192) then
        decodeScalar ((b0 - 240) * 262144 + (rest.headD 0 - 128) * 4096 +
            ((rest.drop 1).headD 0 - 128) * 64 + ((rest.drop 2).headD 0 - 128))
          :: utf8DecodeAux fuel (rest.drop 3)
      else replChar :: utf8DecodeAux fuel rest

/-- Lossy UTF-8 decode of a byte list (Node's `toString("utf8")`). -/
def utf8Decode (bytes : List Nat) : List Char := utf8DecodeAux bytes.length bytes

/-- Lowercase hex digit for a value below 16. -/
def hexDigitChar (n : Nat) : Char :=
  if n < 10 then Char.ofNat (48 + n) else Char.ofNat (87 + n)

/-- Lowercase hex rendering of a byte list (`buffer.toString("hex")`). -/
def hexChars (bytes : List Nat) : List Char :=
  bytes.flatMap fun b => [hexDigitChar (b / 16), hexDigitChar (b % 16)]

/-- Value of one hex digit, accepting both cases as `Buffer.from(s, "hex")` does. -/
def hexVal (c : Char) : Option Nat :=
  if 48 ≤ c.toNat ∧ c.toNat ≤ 57 then some (c.toNat - 48)
  else if 97 ≤ c.toNat ∧ c.toNat ≤ 102 then some (c.toNat - 87)
  else if 65 ≤ c.toNat ∧ c.toNat ≤ 70 then some (c.toNat - 55)
  else none

/-- Hex parsing with Node's lenient semantics: decode digit pairs and stop at
the first invalid pair or dangling digit. -/
def nodeHexDecode : List Char → List Nat
  | c0 :: c1 :: rest =>
    match hexVal c0, hexVal c1 with
    | some hi, some lo => (16 * hi + lo) :: nodeHexDecode rest
    | _, _ => []
  | _ => []

/-- PKCS#7 padding to the 16-byte AES block size, applied by
`cipher.final()`. -/
def pkcs7Pad (m : List Nat) : List Nat :=
  let p := 16 - m.length % 16
  m ++ List.replicate p p

/-- PKCS#7 unpadding check performed by `decipher.final()`: the last byte
gives the padding length, and every padding byte must match it. -/
def pkcs7Unpad (m : List Nat) : Option (List Nat) :=
  match m.getLast? with
  | none => none
  | some p =>
    if 1 ≤ p ∧ p ≤ 16 ∧ p ≤ m.length ∧ ∀ x ∈ m.drop (m.length - p), x = p then
      some (m.take (m.length - p))
    else none

/-- Bytewise XOR of two blocks. -/
def xorBlock (a b : List Nat) : List Nat := List.zipWith (fun x y => x ^^^ y) a b

/-- Fuelled split of a byte list into 16-byte blocks. -/
def toBlocksAux : Nat → List Nat → List (List Nat)
  | 0, _ => []
  | fuel + 1, m => if m = [] then [] else m.take 16 :: toBlocksAux fuel (m.drop 16)

/-- Split a byte list into 16-byte blocks. -/
def toBlocks (m : List Nat) : List (List Nat) := toBlocksAux m.length m

/-- Concatenate blocks back into a byte list. -/
def fromBlocks (blocks : List (List Nat)) : List Nat := blocks.flatten

/-- CBC-mode encryption chaining: each plaintext block is XORed with the
previous ciphertext block (initially the IV) before the block cipher `E`. -/
def cbcEncBlocks (E : List Nat → List Nat) : List Nat → List (List Nat) → List (List Nat)
  | _, [] => []
  | prev, b :: bs =>
    let c := E (xorBlock b prev)
    c :: cbcEncBlocks E c bs

/-- CBC-mode decryption chaining with the block cipher inverse `D`. -/
def cbcDecBlocks (D : List Nat → List Nat) : List Nat → List (List Nat) → List (List Nat)
  | _, [] => []
  | prev, b :: bs => xorBlock (D b) prev :: cbcDecBlocks D b bs

/-- `encrypt` from `config.ts`, with the AES-256 block map `E` (under the
machine-derived key) and the random IV passed explicitly: UTF-8 encode, pad,
CBC-encrypt, and render `hex(iv) : hex(ciphertext)`. -/
def encrypt (E : List Nat → List Nat) (iv : List Nat) (text : String) : String :=
  let padded := pkcs7Pad (utf8Encode text.data)
  let ct := fromBlocks (cbcEncBlocks E iv (toBlocks padded))
  String.mk (hexChars iv) ++ ":" ++ String.mk (hexChars ct)

/-- Split on the colon delimiter, modelling `text.split(":")`. -/
def splitOnColon : List Char → List (List Char)
  | [] => [[]]
  | c :: rest =>
    if c = ':' then [] :: splitOnColon rest
    else
      match splitOnColon rest with
      | r :: rs => (c :: r) :: rs
      | [] => [[c]]

/-- The `try` body of `decrypt` from `config.ts`: split the record on the
delimiter (a missing second part makes `decipher.update(undefined)` throw),
hex-decode the IV (`createDecipheriv` throws unless it is 16 bytes),
hex-decode the ciphertext (`final()` throws unless it is a positive multiple
of the block size), CBC-decrypt, unpad (`final()` throws on bad padding), and
UTF-8 decode.  `none` is a thrown error. -/
def tryDecrypt (D : List Nat → List Nat) (text : String) : Option String :=
  let parts := splitOnColon text.data
  match parts[1]? with
  | none => none
  | some encryptedHex =>
    let iv := nodeHexDecode (parts.headD [])
    if iv.length = 16 then
      let ct := nodeHexDecode encryptedHex
      if 0 < ct.length ∧ ct.length % 16 = 0 then
        match pkcs7Unpad (fromBlocks (cbcDecBlocks D iv (toBlocks ct))) with
        | some pt => some (String.mk (utf8Decode pt))
        | none => none
      else none
    else none

/-- `decrypt` from `config.ts`: run the decryption pipeline and return the
input unchanged when any step fails (the `catch` branch). -/
def decrypt (D : List Nat → List Nat) (text : String) : String :=
  match tryDecrypt D text with
  | some plain => plain
  | none => text

/-! ## Profile store (`src/lib/config.ts`) -/

/-- `getProfiles`: the raw persisted map, credentials left encrypted. -/
def getProfiles (st : ProfileConfig) : List (String × Profile) := st.profiles

/-- `getProfile` from `config.ts`: exact lookup; when the stored profile
carries a truthy credential, return a copy with it decrypted. -/
def getProfile (D : List Nat → List Nat) (st : ProfileConfig) (name : String) :
    Option Profile :=
  match objLookup st.profiles name with
  | none => none
  | some profile =>
    if truthy profile.apiKey then
      some { profile with apiKey := some (decrypt D (profile.apiKey.getD "")) }
    else some profile

/-- `saveProfile` from `config.ts`: copy the profile, encrypt a truthy
credential when encryption is enabled, stamp `updatedAt` with the save-time
clock value `now`, and write the record back under its name. -/
def saveProfile (E : List Nat → List Nat) (iv : List Nat) (now : String)
    (st : ProfileConfig) (profile : Profile) : ProfileConfig :=
  let toSave :=
    if truthy profile.apiKey && st.settings.encryptionEnabled then
      { profile with apiKey := some (encrypt E iv (profile.apiKey.getD "")) }
    else profile
  let toSave := { toSave with updatedAt := now }
  { st with profiles := objSet st.profiles profile.name toSave }

/-- `deleteProfile` from `config.ts`: if the name is bound, delete it, clear
the active pointer when it named the deleted profile, and report `true`;
otherwise report `false`. -/
def deleteProfile (st : ProfileConfig) (name : String) : ProfileConfig × Bool :=
  if (objLookup st.profiles name).isSome then
    let st1 : ProfileConfig := { st with profiles := objDelete st.profiles name }
    let st2 := if st1.activeProfile = some name then { st1 with activeProfile := none } else st1
    (st2, true)
  else (st, false)

/-- `getActiveProfile` from `config.ts`. -/
def getActiveProfile (st : ProfileConfig) : Option String := st.activeProfile

/-- `setActiveProfile` from `config.ts`. -/
def setActiveProfile (st : ProfileConfig) (name : Option String) : ProfileConfig :=
  { st with activeProfile := name }

/-- `profileExists` from `config.ts`. -/
def profileExists (st : ProfileConfig) (name : String) : Bool :=
  (objLookup st.profiles name).isSome

/-! ## Concrete instances used by closed theorems -/

/-- Boolean test that `pre` is a leading substring of `s`. -/
def strStarts (s pre : String) : Bool := pre.data.isPrefixOf s.data

/-- A fixed clock value standing in for `new Date().toISOString()`. -/
def tNow : String := "2025-01-01T00:00:00.000Z"

/-- An all-zero 16-byte initialization vector. -/
def ivZero : List Nat := List.replicate 16 0

/-- The literal profile of the spec's §8 test case:
`{baseUrl:"https://api.x.com", apiKey:"sk-1'2", model:"m1", clearAnthropicKey:true}`. -/
def pLiteral : Profile :=
  { name := "work", description := none, provider := "custom",
    baseUrl := "https://api.x.com", model := some "m1",
    apiKey := some ("sk-1" ++ sq ++ "2"), clearAnthropicKey := true,
    extraEnv := none, createdAt := "t0", updatedAt := "t0" }

/-- A profile whose `extraEnv` carries a non-empty `ANTHROPIC_API_KEY` entry. -/
def pAmbientKey : Profile :=
  { name := "amb", description := none, provider := "custom",
    baseUrl := "https://api.x.com", model := none,
    apiKey := none, clearAnthropicKey := true,
    extraEnv := some [("ANTHROPIC_API_KEY", "sk-ambient")],
    createdAt := "t0", updatedAt := "t0" }

/-- A profile with `clearDefaultKey` set and a harmless extra entry. -/
def pClearOnly : Profile :=
  { name := "co", description := none, provider := "custom",
    baseUrl := "https://api.x.com", model := none,
    apiKey := some "sk-k", clearAnthropicKey := true,
    extraEnv := some [("FOO", "bar")],
    createdAt := "t0", updatedAt := "t0" }

/-- A profile whose `extraEnv` carries an entry with the empty string value. -/
def pEmptyExtra : Profile :=
  { name := "ee", description := none, provider := "custom",
    baseUrl := "", model := none,
    apiKey := none, clearAnthropicKey := false,
    extraEnv := some [("EXTRA_FLAG", "")],
    createdAt := "t0", updatedAt := "t0" }

/-- A plain stored profile used to populate concrete store states. -/
def pStored : Profile :=
  { name := "x", description := some "d", provider := "custom",
    baseUrl := "https://api.x.com", model := some "m",
    apiKey := some "sk-test-123", clearAnthropicKey := true,
    extraEnv := none, createdAt := "t0", updatedAt := "t0" }

/-- An empty store with default settings. -/
def stEmpty : ProfileConfig :=
  { profiles := [], activeProfile := none,
    settings := { encryptionEnabled := true, defaultShell := ShellType.bash } }

/-- A store holding exactly the profile `pStored` under the name `x`. -/
def stOne : ProfileConfig :=
  { profiles := [("x", pStored)], activeProfile := none,
    settings := { encryptionEnabled := true, defaultShell := ShellType.bash } }

/-! ## Association-list lemmas -/

theorem mem_objSet {α : Type} (l : List (String × α)) (k : String) (v : α)
    (kv : String × α) (h : kv ∈ objSet l k v) : kv = (k, v) ∨ kv ∈ l := by
  induction l with
  | nil => simpa [objSet] using h
  | cons hd tl ih =>
    simp only [objSet] at h
    by_cases hk : hd.1 = k
    · rw [if_pos hk] at h
      rcases List.mem_cons.mp h with h2 | h2
      · exact Or.inl h2
      · exact Or.inr (List.mem_cons_of_mem _ h2)
    · rw [if_neg hk] at h
      rcases List.mem_cons.mp h with h2 | h2
      · exact Or.inr (h2 ▸ List.mem_cons_self _ _)
      · rcases ih h2 with h3 | h3
        · exact Or.inl h3
        · exact Or.inr (List.mem_cons_of_mem _ h3)

theorem mem_objAssign {α : Type} (extra : List (String × α)) :
    ∀ (base : List (String × α)) (kv : String × α),
      kv ∈ objAssign base extra → kv ∈ base ∨ kv ∈ extra := by
  induction extra with
  | nil => intro base kv h; exact Or.inl h
  | cons e es ih =>
    intro base kv h
    rcases ih (objSet base e.1 e.2) kv h with h2 | h2
    · rcases mem_objSet base e.1 e.2 kv h2 with h3 | h3
      · exact Or.inr (h3 ▸ List.mem_cons_self _ _)
      · exact Or.inl h3
    · exact Or.inr (List.mem_cons_of_mem _ h2)

theorem objLookup_objSet_self {α : Type} (l : List (String × α)) (k : String) (v : α) :
    objLookup (objSet l k v) k = some v := by
  induction l with
  | nil => simp [objSet, objLookup]
  | cons hd tl ih =>
    simp only [objSet]
    by_cases hk : hd.1 = k
    · rw [if_pos hk]; simp [objLookup]
    · rw [if_neg hk]; simp only [objLookup, if_neg hk]; exact ih

theorem objLookup_objSet_ne {α : Type} (l : List (String × α)) (k k2 : String) (v : α)
    (h : k2 ≠ k) : objLookup (objSet l k2 v) k = objLookup l k := by
  induction l with
  | nil => simp [objSet, objLookup, h]
  | cons hd tl ih =>
    simp only [objSet]
    by_cases hk : hd.1 = k2
    · rw [if_pos hk]
      simp only [objLookup, if_neg h, hk]
    · rw [if_neg hk]
      simp only [objLookup]
      by_cases hk2 : hd.1 = k
      · rw [if_pos hk2, if_pos hk2]
      · rw [if_neg hk2, if_neg hk2]; exact ih

theorem objLookup_mem {α : Type} (l : List (String × α)) (k : String) (v : α)
    (h : objLookup l k = some v) : (k, v) ∈ l := by
  induction l with
  | nil => simp [objLookup] at h
  | cons hd tl ih =>
    simp only [objLookup] at h
    by_cases hk : hd.1 = k
    · rw [if_pos hk] at h
      have h2 : hd = (k, v) := by cases hd; simp_all
      exact h2 ▸ List.mem_cons_self _ _
    · rw [if_neg hk] at h
      exact List.mem_cons_of_mem _ (ih h)

theorem objLookup_objAssign_not_mem {α : Type} (extra : List (String × α)) :
    ∀ (base : List (String × α)) (k : String), k ∉ extra.map Prod.fst →
      objLookup (objAssign base extra) k = objLookup base k := by
  induction extra with
  | nil => intro base k _; rfl
  | cons e es ih =>
    intro base k hk
    simp only [List.map_cons, List.mem_cons] at hk
    push_neg at hk
    have h1 : objAssign base (e :: es) = objAssign (objSet base e.1 e.2) es := rfl
    rw [h1, ih (objSet base e.1 e.2) k hk.2, objLookup_objSet_ne]
    exact fun h => hk.1 h.symm

theorem objLookup_objAssign_of_mem {α : Type} (extra : List (String × α)) :
    ∀ (base : List (String × α)) (k : String) (v : α),
      (extra.map Prod.fst).Nodup → (k, v) ∈ extra →
      objLookup (objAssign base extra) k = some v := by
  induction extra with
  | nil => intro base k v _ h; simp at h
  | cons e es ih =>
    intro base k v hnd hmem
    have h1 : objAssign base (e :: es) = objAssign (objSet base e.1 e.2) es := rfl
    simp only [List.map_cons, List.nodup_cons] at hnd
    rcases List.mem_cons.mp hmem with h2 | h2
    · have hk1 : e.1 = k := by rw [← h2]
      have hkn : k ∉ es.map Prod.fst := hk1 ▸ hnd.1
      rw [h1, objLookup_objAssign_not_mem es (objSet base e.1 e.2) k hkn, hk1,
        objLookup_objSet_self]
      rw [← h2]
    · rw [h1]; exact ih _ k v hnd.2 h2

theorem objLookup_objDelete_self {α : Type} (l : List (String × α)) (k : String) :
    objLookup (objDelete l k) k = none := by
  induction l with
  | nil => rfl
  | cons hd tl ih =>
    by_cases hk : hd.1 = k
    · simpa [objDelete, List.filter_cons, hk] using ih
    · have hp : (decide (hd.1 ≠ k)) = true := by simp [hk]
      simp only [objDelete, List.filter_cons, hp, if_true]
      simp only [objLookup, if_neg hk]
      simpa [objDelete] using ih

theorem mem_ite_objSet {α : Type} (c : Prop) [Decidable c] (l : List (String × α))
    (k : String) (v : α) (kv : String × α)
    (h : kv ∈ (if c then objSet l k v else l)) : kv = (k, v) ∨ kv ∈ l := by
  split at h
  · exact mem_objSet l k v kv h
  · exact Or.inr h

/-- Every entry of the generated environment set is one of the four fixed
bindings or comes from `extraEnv`. -/
theorem mem_generateEnvVars (profile : Profile) (kv : String × String)
    (h : kv ∈ generateEnvVars profile) :
    kv = ("ANTHROPIC_BASE_URL", profile.baseUrl) ∨
    kv = ("ANTHROPIC_AUTH_TOKEN", profile.apiKey.getD "") ∨
    kv = ("ANTHROPIC_MODEL", profile.model.getD "") ∨
    kv = ("ANTHROPIC_API_KEY", "") ∨
    kv ∈ profile.extraEnv.getD [] := by
  cases hEx : profile.extraEnv with
  | none =>
    simp only [generateEnvVars, hEx] at h
    rcases mem_ite_objSet _ _ _ _ _ h with h4 | h3
    · exact Or.inr (Or.inr (Or.inr (Or.inl h4)))
    rcases mem_ite_objSet _ _ _ _ _ h3 with h4 | h2
    · exact Or.inr (Or.inr (Or.inl h4))
    rcases mem_ite_objSet _ _ _ _ _ h2 with h4 | h1
    · exact Or.inr (Or.inl h4)
    rcases mem_ite_objSet _ _ _ _ _ h1 with h4 | h0
    · exact Or.inl h4
    simp at h0
  | some extra =>
    simp only [generateEnvVars, hEx] at h
    rcases mem_objAssign extra _ kv h with h3 | hx
    · rcases mem_ite_objSet _ _ _ _ _ h3 with h4 | h2
      · exact Or.inr (Or.inr (Or.inr (Or.inl h4)))
      rcases mem_ite_objSet _ _ _ _ _ h2 with h4 | h1
      · exact Or.inr (Or.inr (Or.inl h4))
      rcases mem_ite_objSet _ _ _ _ _ h1 with h4 | h0
      · exact Or.inr (Or.inl h4)
      rcases mem_ite_objSet _ _ _ _ _ h0 with h4 | hnil
      · exact Or.inl h4
      simp at hnil
    · refine Or.inr (Or.inr (Or.inr (Or.inr ?_)))
      simpa [hEx] using hx

/-! ## Claim C1: the core only ever clears `ANTHROPIC_API_KEY` -/

/-- Counterexample to C1 as stated: for a profile whose `extraEnvironment`
carries the entry `("ANTHROPIC_API_KEY", "sk-ambient")`, the generated bash
activation script does contain a statement assigning a value to
`ANTHROPIC_API_KEY` (the `Object.assign` step overwrites the clear-signal). -/
theorem anthropicApiKey_set_counterexample :
    ("export ANTHROPIC_API_KEY=" ++ sq ++ "sk-ambient" ++ sq)
      ∈ scriptLines pAmbientKey ShellType.bash tNow := by
  decide

/-- C1 (amended): for every profile whose `extraEnvironment` has no entry
binding `ANTHROPIC_API_KEY` to a non-empty value, the environment set never
binds `ANTHROPIC_API_KEY` to anything but the empty clear-signal, so the only
statement any dialect renders for that variable is its clear/unset form. -/
theorem anthropicApiKey_only_cleared (profile : Profile)
    (hx : ∀ v, ("ANTHROPIC_API_KEY", v) ∈ profile.extraEnv.getD [] → v = "") :
    ∀ kv ∈ generateEnvVars profile, kv.1 = "ANTHROPIC_API_KEY" →
      kv.2 = "" ∧
      bashLine kv = "unset ANTHROPIC_API_KEY" ∧
      fishLine kv = "set -e ANTHROPIC_API_KEY" ∧
      powershellLine kv = "Remove-Item Env:\\ANTHROPIC_API_KEY -ErrorAction SilentlyContinue" ∧
      cmdLine kv = "set ANTHROPIC_API_KEY=" := by
  intro kv hmem hkey
  obtain ⟨k0, v0⟩ := kv
  have hk0 : k0 = "ANTHROPIC_API_KEY" := hkey
  subst hk0
  have hv0 : v0 = "" := by
    rcases mem_generateEnvVars profile _ hmem with h | h | h | h | h
    · simp at h
    · simp at h
    · simp at h
    · simpa using h
    · exact hx v0 h
  subst hv0
  exact ⟨rfl, by decide, by decide, by decide, by decide⟩

/-- Witness for C1 (amended): a profile with `clearAnthropicKey` set and a
harmless extra entry yields the empty clear-signal binding, rendered as the
clear form in all four dialect syntaxes. -/
theorem anthropicApiKey_only_cleared_witness :
    ("ANTHROPIC_API_KEY", "") ∈ generateEnvVars pClearOnly ∧
    bashLine ("ANTHROPIC_API_KEY", "") = "unset ANTHROPIC_API_KEY" ∧
    fishLine ("ANTHROPIC_API_KEY", "") = "set -e ANTHROPIC_API_KEY" ∧
    powershellLine ("ANTHROPIC_API_KEY", "") =
      "Remove-Item Env:\\ANTHROPIC_API_KEY -ErrorAction SilentlyContinue" ∧
    cmdLine ("ANTHROPIC_API_KEY", "") = "set ANTHROPIC_API_KEY=" := by
  have h := anthropicApiKey_only_cleared pClearOnly
    (by intro v hv; simp [pClearOnly] at hv)
    ("ANTHROPIC_API_KEY", "") (by decide) rfl
  exact ⟨by decide, h.2.1, h.2.2.1, h.2.2.2.1, h.2.2.2.2⟩

/-! ## Claim C5: `extraEnvironment` entries in the rendered script -/

/-- Counterexample to C5 as stated: an `extraEnvironment` entry whose value is
the empty string is not rendered as an assignment carrying the empty value —
the bash script contains no `export EXTRA_FLAG=...` statement at all, only
the `unset EXTRA_FLAG` clear form. -/
theorem extraEnv_empty_value_counterexample :
    ("export EXTRA_FLAG=" ++ sq ++ sq) ∉ scriptLines pEmptyExtra ShellType.bash tNow ∧
    (∀ l ∈ scriptLines pEmptyExtra ShellType.bash tNow,
      strStarts l "export EXTRA_FLAG=" = false) ∧
    "unset EXTRA_FLAG" ∈ scriptLines pEmptyExtra ShellType.bash tNow := by
  decide

/-- C5 (amended): for every profile and dialect, each `extraEnvironment`
entry with a non-empty value appears in the activation script as the
dialect's assignment statement carrying that value verbatim modulo the
dialect's escaping; an empty-valued entry is instead rendered as the
dialect's clear form. -/
theorem extraEnv_nonempty_rendered (profile : Profile) (k v : String)
    (shell : ShellType) (now : String)
    (hnd : ((profile.extraEnv.getD []).map Prod.fst).Nodup)
    (hmem : (k, v) ∈ profile.extraEnv.getD [])
    (hv : v ≠ "") :
    assignStmt shell k v ∈ scriptLines profile shell now := by
  have hex : ∃ extra, profile.extraEnv = some extra := by
    cases hEx : profile.extraEnv with
    | none => rw [hEx] at hmem; simp at hmem
    | some extra => exact ⟨extra, rfl⟩
  obtain ⟨extra, hEx⟩ := hex
  rw [hEx] at hmem hnd
  simp only [Option.getD_some] at hmem hnd
  have henv : (k, v) ∈ generateEnvVars profile := by
    have hl : objLookup (generateEnvVars profile) k = some v := by
      simp only [generateEnvVars, hEx]
      exact objLookup_objAssign_of_mem extra _ k v hnd hmem
    exact objLookup_mem _ _ _ hl
  cases shell with
  | bash =>
    have hline : bashLine (k, v) = assignStmt ShellType.bash k v := by
      simp [bashLine, assignStmt, hv]
    have hmap : assignStmt ShellType.bash k v ∈ (generateEnvVars profile).map bashLine :=
      List.mem_map.mpr ⟨(k, v), henv, hline⟩
    simp only [scriptLines, bashScriptLines]
    exact List.mem_append.mpr (Or.inl (List.mem_append.mpr (Or.inr hmap)))
  | zsh =>
    have hline : bashLine (k, v) = assignStmt ShellType.zsh k v := by
      simp [bashLine, assignStmt, hv]
    have hmap : assignStmt ShellType.zsh k v ∈ (generateEnvVars profile).map bashLine :=
      List.mem_map.mpr ⟨(k, v), henv, hline⟩
    simp only [scriptLines, bashScriptLines]
    exact List.mem_append.mpr (Or.inl (List.mem_append.mpr (Or.inr hmap)))
  | fish =>
    have hline : fishLine (k, v) = assignStmt ShellType.fish k v := by
      simp [fishLine, assignStmt, hv]
    have hmap : assignStmt ShellType.fish k v ∈ (generateEnvVars profile).map fishLine :=
      List.mem_map.mpr ⟨(k, v), henv, hline⟩
    simp only [scriptLines, fishScriptLines]
    exact List.mem_append.mpr (Or.inl (List.mem_append.mpr (Or.inr hmap)))
  | powershell =>
    have hline : powershellLine (k, v) = assignStmt ShellType.powershell k v := by
      simp [powershellLine, assignStmt, hv]
    have hmap : assignStmt ShellType.powershell k v
        ∈ (generateEnvVars profile).map powershellLine :=
      List.mem_map.mpr ⟨(k, v), henv, hline⟩
    simp only [scriptLines, powershellScriptLines]
    exact List.mem_append.mpr (Or.inl (List.mem_append.mpr (Or.inr hmap)))
  | cmd =>
    have hline : cmdLine (k, v) = assignStmt ShellType.cmd k v := by
      simp [cmdLine, assignStmt, hv]
    have hmap : assignStmt ShellType.cmd k v ∈ (generateEnvVars profile).map cmdLine :=
      List.mem_map.mpr ⟨(k, v), henv, hline⟩
    simp only [scriptLines, cmdScriptLines]
    exact List.mem_append.mpr (Or.inl (List.mem_append.mpr (Or.inr hmap)))

/-- Witness for C5 (amended): the non-empty extra entry `FOO=bar` appears as
the fish assignment statement in the fish activation script. -/
theorem extraEnv_nonempty_rendered_witness :
    assignStmt ShellType.fish "FOO" "bar" ∈ scriptLines pClearOnly ShellType.fish tNow :=
  extraEnv_nonempty_rendered pClearOnly "FOO" "bar" ShellType.fish tNow
    (by decide) (by decide) (by decide)

/-! ## Claim C7: `deleteProfile` and the active pointer -/

/-- Counterexample to C7 as stated: when no profile named `x` exists,
`setActiveProfile("x")` followed by `deleteProfile("x")` leaves the active
pointer dangling at `x` instead of none — the clearing step only runs when a
deletion occurred. -/
theorem deleteProfile_dangling_counterexample :
    getActiveProfile (deleteProfile (setActiveProfile stEmpty (some "x")) "x").1
      = some "x" := by
  decide

/-- C7 (amended): `deleteProfile` reports `true` exactly when the name was
bound, after which the name is unbound; when a deletion occurred and the
active pointer named the deleted profile it is cleared, and in particular
`setActiveProfile` then `deleteProfile` on the name of an existing profile
leaves `getActiveProfile` at none. -/
theorem deleteProfile_behavior (st : ProfileConfig) (n : String) :
    ((deleteProfile st n).2 = (objLookup st.profiles n).isSome) ∧
    (objLookup (deleteProfile st n).1.profiles n = none) ∧
    ((objLookup st.profiles n).isSome → st.activeProfile = some n →
      (deleteProfile st n).1.activeProfile = none) ∧
    ((objLookup st.profiles n).isSome →
      getActiveProfile (deleteProfile (setActiveProfile st (some n)) n).1 = none) := by
  cases hopt : objLookup st.profiles n with
  | none =>
    refine ⟨?_, ?_, ?_, ?_⟩
    · simp [deleteProfile, hopt]
    · simp [deleteProfile, hopt]
    · intro h2; simp at h2
    · intro h2; simp at h2
  | some p =>
    refine ⟨?_, ?_, ?_, ?_⟩
    · simp [deleteProfile, hopt]
    · simp only [deleteProfile, hopt, Option.isSome_some, if_true]
      split
      · exact objLookup_objDelete_self _ _
      · exact objLookup_objDelete_self _ _
    · intro _ hact
      simp [deleteProfile, hopt, hact]
    · intro _
      simp [deleteProfile, setActiveProfile, getActiveProfile, hopt]

/-- Witness for C7 (amended): with a store holding a profile named `x`,
activating then deleting `x` leaves the active pointer cleared. -/
theorem deleteProfile_behavior_witness :
    getActiveProfile (deleteProfile (setActiveProfile stOne (some "x")) "x").1 = none :=
  (deleteProfile_behavior stOne "x").2.2.2 (by decide)

/-! ## Credential cipher lemmas -/

theorem decodeScalar_toNat (c : Char) : decodeScalar c.toNat = c := by
  have h : Nat.isValidChar c.toNat := c.valid
  simp [decodeScalar, h, Char.ofNat_toNat]

theorem utf8DecodeAux_nil (fuel : Nat) : utf8DecodeAux fuel [] = [] := by
  cases fuel <;> rfl

theorem char_toNat_lt (c : Char) : c.toNat < 1114112 := by
  have h : c.toNat < 55296 ∨ (57343 < c.toNat ∧ c.toNat < 1114112) := c.valid
  omega

theorem utf8DecodeAux_encodeChar (fuel : Nat) (c : Char) (bs : List Nat) :
    utf8DecodeAux (fuel + 1) (utf8EncodeChar c ++ bs) = c :: utf8DecodeAux fuel bs := by
  have hlt : c.toNat < 1114112 := char_toNat_lt c
  by_cases h1 : c.toNat < 128
  · have he : utf8EncodeChar c = [c.toNat] := by simp [utf8EncodeChar, h1]
    rw [he, List.singleton_append]
    simp only [utf8DecodeAux, if_pos h1, decodeScalar_toNat]
  · by_cases h2 : c.toNat < 2048
    · have he : utf8EncodeChar c = [192 + c.toNat / 64, 128 + c.toNat % 64] := by
        simp [utf8EncodeChar, h1, h2]
      rw [he]
      simp only [List.cons_append, List.nil_append]
      have d1 : ¬ (192 + c.toNat / 64 < 128) := by omega
      have d2 : ¬ (192 + c.toNat / 64 < 192) := by omega
      have d3 : 192 + c.toNat / 64 < 224 := by omega
      simp only [utf8DecodeAux, if_neg d1, if_neg d2, if_pos d3, List.headD_cons,
        List.drop_succ_cons, List.drop_zero]
      have d4 : 128 ≤ 128 + c.toNat % 64 ∧ 128 + c.toNat % 64 < 192 := by omega
      rw [if_pos d4]
      have harg : (192 + c.toNat / 64 - 192) * 64 + (128 + c.toNat % 64 - 128) = c.toNat := by
        omega
      rw [harg, decodeScalar_toNat]
    · by_cases h3 : c.toNat < 65536
      · have he : utf8EncodeChar c =
            [224 + c.toNat / 4096, 128 + c.toNat / 64 % 64, 128 + c.toNat % 64] := by
          simp [utf8EncodeChar, h1, h2, h3]
        rw [he]
        simp only [List.cons_append, List.nil_append]
        have d1 : ¬ (224 + c.toNat / 4096 < 128) := by omega
        have d2 : ¬ (224 + c.toNat / 4096 < 192) := by omega
        have d3 : ¬ (224 + c.toNat / 4096 < 224) := by omega
        have d4 : 224 + c.toNat / 4096 < 240 := by omega
        simp only [utf8DecodeAux, if_neg d1, if_neg d2, if_neg d3, if_pos d4, List.headD_cons,
          List.drop_succ_cons, List.drop_zero]
        have d5 : (128 ≤ 128 + c.toNat / 64 % 64 ∧ 128 + c.toNat / 64 % 64 < 192) ∧
            (128 ≤ 128 + c.toNat % 64 ∧ 128 + c.toNat % 64 < 192) := by omega
        rw [if_pos d5]
        have harg : (224 + c.toNat / 4096 - 224) * 4096 + (128 + c.toNat / 64 % 64 - 128) * 64 +
            (128 + c.toNat % 64 - 128) = c.toNat := by omega
        rw [harg, decodeScalar_toNat]
      · have he : utf8EncodeChar c =
            [240 + c.toNat / 262144, 128 + c.toNat / 4096 % 64,
             128 + c.toNat / 64 % 64, 128 + c.toNat % 64] := by
          simp [utf8EncodeChar, h1, h2, h3]
        rw [he]
        simp only [List.cons_append, List.nil_append]
        have d1 : ¬ (240 + c.toNat / 262144 < 128) := by omega
        have d2 : ¬ (240 + c.toNat / 262144 < 192) := by omega
        have d3 : ¬ (240 + c.toNat / 262144 < 224) := by omega
        have d4 : ¬ (240 + c.toNat / 262144 < 240) := by omega
        simp only [utf8DecodeAux, if_neg d1, if_neg d2, if_neg d3, if_neg d4, List.headD_cons,
          List.drop_succ_cons, List.drop_zero]
        have d5 : (128 ≤ 128 + c.toNat / 4096 % 64 ∧ 128 + c.toNat / 4096 % 64 < 192) ∧
            (128 ≤ 128 + c.toNat / 64 % 64 ∧ 128 + c.toNat / 64 % 64 < 192) ∧
            (128 ≤ 128 + c.toNat % 64 ∧ 128 + c.toNat % 64 < 192) := by omega
        rw [if_pos d5]
        have harg : (240 + c.toNat / 262144 - 240) * 262144 +
            (128 + c.toNat / 4096 % 64 - 128) * 4096 +
            (128 + c.toNat / 64 % 64 - 128) * 64 + (128 + c.toNat % 64 - 128) = c.toNat := by
          omega
        rw [harg, decodeScalar_toNat]



theorem length_le_utf8Encode (cs : List Char) : cs.length ≤ (utf8Encode cs).length := by
  induction cs with
  | nil => simp [utf8Encode]
  | cons c cs ih =>
    have h1 : 1 ≤ (utf8EncodeChar c).length := by
      simp only [utf8EncodeChar]
      split_ifs <;> simp
    simp only [utf8Encode, List.flatMap_cons, List.length_append, List.length_cons]
    simp only [utf8Encode] at ih
    omega

theorem utf8DecodeAux_encode (cs : List Char) :
    ∀ fuel, cs.length ≤ fuel → utf8DecodeAux fuel (utf8Encode cs) = cs := by
  induction cs with
  | nil => intro fuel _; exact utf8DecodeAux_nil fuel
  | cons c cs ih =>
    intro fuel hf
    obtain ⟨f, rfl⟩ : ∃ f, fuel = f + 1 := by
      cases fuel with
      | zero => simp at hf
      | succ f => exact ⟨f, rfl⟩
    have he : utf8Encode (c :: cs) = utf8EncodeChar c ++ utf8Encode cs := by
      simp [utf8Encode]
    rw [he, utf8DecodeAux_encodeChar f c (utf8Encode cs)]
    have hlen : cs.length ≤ f := by simp at hf; omega
    rw [ih f hlen]

theorem utf8Decode_encode (cs : List Char) : utf8Decode (utf8Encode cs) = cs :=
  utf8DecodeAux_encode cs (utf8Encode cs).length (length_le_utf8Encode cs)

theorem utf8EncodeChar_lt (c : Char) : ∀ b ∈ utf8EncodeChar c, b < 256 := by
  have hlt : c.toNat < 1114112 := char_toNat_lt c
  intro b hb
  simp only [utf8EncodeChar] at hb
  split_ifs at hb
  · simp only [List.mem_cons, List.not_mem_nil, or_false] at hb; subst hb; omega
  · simp only [List.mem_cons, List.not_mem_nil, or_false] at hb
    rcases hb with rfl | rfl <;> omega
  · simp only [List.mem_cons, List.not_mem_nil, or_false] at hb
    rcases hb with rfl | rfl | rfl <;> omega
  · simp only [List.mem_cons, List.not_mem_nil, or_false] at hb
    rcases hb with rfl | rfl | rfl | rfl <;> omega

theorem utf8Encode_lt (cs : List Char) : ∀ b ∈ utf8Encode cs, b < 256 := by
  intro b hb
  simp only [utf8Encode, List.mem_flatMap] at hb
  obtain ⟨c, _, hc⟩ := hb
  exact utf8EncodeChar_lt c b hc

theorem hexVal_hexDigitChar : ∀ n, n < 16 → hexVal (hexDigitChar n) = some n := by decide

theorem hexDigitChar_ne_colon : ∀ n, n < 16 → hexDigitChar n ≠ ':' := by decide

theorem nodeHexDecode_hexChars (bytes : List Nat) (hb : ∀ b ∈ bytes, b < 256) :
    nodeHexDecode (hexChars bytes) = bytes := by
  induction bytes with
  | nil => rfl
  | cons b bs ih =>
    have hb0 : b < 256 := hb b (List.mem_cons_self _ _)
    have h1 : b / 16 < 16 := by omega
    have h2 : b % 16 < 16 := by omega
    have he : hexChars (b :: bs) =
        hexDigitChar (b / 16) :: hexDigitChar (b % 16) :: hexChars bs := by
      simp [hexChars]
    rw [he]
    simp only [nodeHexDecode, hexVal_hexDigitChar _ h1, hexVal_hexDigitChar _ h2]
    have harg : 16 * (b / 16) + b % 16 = b := by omega
    rw [harg, ih fun x hx => hb x (List.mem_cons_of_mem _ hx)]

theorem colon_not_mem_hexChars (bytes : List Nat) (hb : ∀ b ∈ bytes, b < 256) :
    ∀ c ∈ hexChars bytes, c ≠ ':' := by
  intro c hc
  simp only [hexChars, List.mem_flatMap] at hc
  obtain ⟨b, hbm, hcm⟩ := hc
  have hb0 : b < 256 := hb b hbm
  simp only [List.mem_cons, List.not_mem_nil, or_false] at hcm
  rcases hcm with rfl | rfl
  · exact hexDigitChar_ne_colon _ (by omega)
  · exact hexDigitChar_ne_colon _ (by omega)

theorem splitOnColon_ne_nil (l : List Char) : splitOnColon l ≠ [] := by
  induction l with
  | nil => simp [splitOnColon]
  | cons c rest ih =>
    simp only [splitOnColon]
    split
    · simp
    · cases h : splitOnColon rest with
      | nil => exact absurd h ih
      | cons r rs => simp

theorem splitOnColon_no_colon (l : List Char) (h : ∀ c ∈ l, c ≠ ':') :
    splitOnColon l = [l] := by
  induction l with
  | nil => rfl
  | cons c rest ih =>
    have hc : c ≠ ':' := h c (List.mem_cons_self _ _)
    simp only [splitOnColon, if_neg hc]
    rw [ih fun x hx => h x (List.mem_cons_of_mem _ hx)]

theorem splitOnColon_append (a b : List Char) (h : ∀ c ∈ a, c ≠ ':') :
    splitOnColon (a ++ ':' :: b) = a :: splitOnColon b := by
  induction a with
  | nil => simp [splitOnColon]
  | cons c rest ih =>
    have hc : c ≠ ':' := h c (List.mem_cons_self _ _)
    simp only [List.cons_append, splitOnColon, if_neg hc, List.append_eq]
    rw [ih fun x hx => h x (List.mem_cons_of_mem _ hx)]



theorem pkcs7Pad_length_mod (m : List Nat) : (pkcs7Pad m).length % 16 = 0 := by
  simp only [pkcs7Pad, List.length_append, List.length_replicate]
  omega

theorem pkcs7Pad_ne_nil (m : List Nat) : pkcs7Pad m ≠ [] := by
  simp only [pkcs7Pad]
  intro h
  have h2 := congrArg List.length h
  simp only [List.length_append, List.length_replicate, List.length_nil] at h2
  omega

theorem pkcs7Pad_lt (m : List Nat) (hm : ∀ x ∈ m, x < 256) :
    ∀ x ∈ pkcs7Pad m, x < 256 := by
  intro x hx
  simp only [pkcs7Pad, List.mem_append, List.mem_replicate] at hx
  rcases hx with hx | hx
  · exact hm x hx
  · omega

theorem pkcs7Unpad_pkcs7Pad (m : List Nat) : pkcs7Unpad (pkcs7Pad m) = some m := by
  set p := 16 - m.length % 16 with hp
  have hmod : m.length % 16 < 16 := Nat.mod_lt _ (by omega)
  have hp1 : 1 ≤ p := by omega
  have hp2 : p ≤ 16 := by omega
  have hlast : (pkcs7Pad m).getLast? = some p := by
    simp only [pkcs7Pad, ← hp, List.getLast?_append, List.getLast?_replicate]
    rw [if_neg (by omega)]
    rfl
  have hlen : (pkcs7Pad m).length = m.length + p := by
    simp [pkcs7Pad, ← hp]
  have hsub : (pkcs7Pad m).length - p = m.length := by omega
  have hdrop : (pkcs7Pad m).drop ((pkcs7Pad m).length - p) = List.replicate p p := by
    rw [hsub]
    simp only [pkcs7Pad, ← hp]
    exact List.drop_left m _
  have htake : (pkcs7Pad m).take ((pkcs7Pad m).length - p) = m := by
    rw [hsub]
    simp only [pkcs7Pad, ← hp]
    exact List.take_left m _
  simp only [pkcs7Unpad, hlast]
  rw [if_pos]
  · rw [htake]
  · refine ⟨hp1, hp2, by omega, ?_⟩
    intro x hx
    rw [hdrop] at hx
    exact (List.mem_replicate.mp hx).2

theorem toBlocksAux_nil (fuel : Nat) : toBlocksAux fuel [] = [] := by
  cases fuel <;> simp [toBlocksAux]

theorem flatten_toBlocksAux (fuel : Nat) : ∀ m : List Nat, m.length ≤ fuel →
    fromBlocks (toBlocksAux fuel m) = m := by
  induction fuel with
  | zero =>
    intro m hm
    have hnil : m = [] := by
      cases m with
      | nil => rfl
      | cons a l => simp at hm
    subst hnil; rfl
  | succ f ih =>
    intro m hm
    by_cases hnil : m = []
    · subst hnil; rfl
    · simp only [toBlocksAux, if_neg hnil]
      simp only [fromBlocks, List.flatten_cons]
      have hlen : (m.drop 16).length ≤ f := by
        have h1 : 1 ≤ m.length := List.length_pos.mpr hnil
        simp only [List.length_drop]
        omega
      have hrec := ih (m.drop 16) hlen
      simp only [fromBlocks] at hrec
      rw [hrec]
      exact List.take_append_drop 16 m

theorem fromBlocks_toBlocks (m : List Nat) : fromBlocks (toBlocks m) = m :=
  flatten_toBlocksAux m.length m le_rfl

theorem toBlocksAux_length16 (fuel : Nat) : ∀ m : List Nat, m.length ≤ fuel →
    m.length % 16 = 0 → ∀ b ∈ toBlocksAux fuel m, b.length = 16 := by
  induction fuel with
  | zero =>
    intro m _ _ b hb
    rw [toBlocksAux] at hb
    simp at hb
  | succ f ih =>
    intro m hm hmod b hb
    by_cases hnil : m = []
    · subst hnil; simp [toBlocksAux] at hb
    · simp only [toBlocksAux, if_neg hnil, List.mem_cons] at hb
      have h1 : 1 ≤ m.length := List.length_pos.mpr hnil
      have h16 : 16 ≤ m.length := by omega
      rcases hb with rfl | hb
      · simp only [List.length_take]
        omega
      · refine ih (m.drop 16) ?_ ?_ b hb
        · simp only [List.length_drop]; omega
        · simp only [List.length_drop]; omega

theorem toBlocksAux_subset (fuel : Nat) : ∀ (m : List Nat) (b : List Nat),
    b ∈ toBlocksAux fuel m → ∀ x ∈ b, x ∈ m := by
  induction fuel with
  | zero =>
    intro m b hb
    rw [toBlocksAux] at hb
    simp at hb
  | succ f ih =>
    intro m b hb x hx
    by_cases hnil : m = []
    · subst hnil; simp [toBlocksAux] at hb
    · simp only [toBlocksAux, if_neg hnil, List.mem_cons] at hb
      rcases hb with rfl | hb
      · exact List.take_subset 16 m hx
      · exact List.drop_subset 16 m (ih (m.drop 16) b hb x hx)

theorem toBlocks_ne_nil (m : List Nat) (h : m ≠ []) : toBlocks m ≠ [] := by
  have h1 : 1 ≤ m.length := List.length_pos.mpr h
  obtain ⟨f, hf⟩ : ∃ f, m.length = f + 1 := ⟨m.length - 1, by omega⟩
  simp only [toBlocks, hf, toBlocksAux, if_neg h]
  simp

theorem toBlocksAux_flatten (blocks : List (List Nat)) (hb : ∀ b ∈ blocks, b.length = 16) :
    ∀ fuel, (fromBlocks blocks).length ≤ fuel → toBlocksAux fuel (fromBlocks blocks) = blocks := by
  induction blocks with
  | nil => intro fuel _; exact toBlocksAux_nil fuel
  | cons b bs ih =>
    intro fuel hf
    have hb0 : b.length = 16 := hb b (List.mem_cons_self _ _)
    have hbs : ∀ x ∈ bs, x.length = 16 := fun x hx => hb x (List.mem_cons_of_mem _ hx)
    simp only [fromBlocks, List.flatten_cons] at hf ⊢
    have hlen : (b ++ bs.flatten).length = 16 + bs.flatten.length := by
      simp [hb0]
    obtain ⟨f, rfl⟩ : ∃ f, fuel = f + 1 := by
      cases fuel with
      | zero => omega
      | succ f => exact ⟨f, rfl⟩
    have hne : b ++ bs.flatten ≠ [] := by
      intro hcontra
      rw [hcontra] at hlen
      simp only [List.length_nil] at hlen
      omega
    simp only [toBlocksAux, if_neg hne]
    have htake : (b ++ bs.flatten).take 16 = b := by
      rw [← hb0]; exact List.take_left b _
    have hdrop : (b ++ bs.flatten).drop 16 = bs.flatten := by
      rw [← hb0]; exact List.drop_left b _
    rw [htake, hdrop]
    have hrec := ih hbs f (by simp only [fromBlocks]; omega)
    simp only [fromBlocks] at hrec
    rw [hrec]

theorem toBlocks_fromBlocks (blocks : List (List Nat)) (hb : ∀ b ∈ blocks, b.length = 16) :
    toBlocks (fromBlocks blocks) = blocks :=
  toBlocksAux_flatten blocks hb _ le_rfl

theorem fromBlocks_length (blocks : List (List Nat)) (hb : ∀ b ∈ blocks, b.length = 16) :
    (fromBlocks blocks).length = 16 * blocks.length := by
  induction blocks with
  | nil => rfl
  | cons b bs ih =>
    simp only [fromBlocks, List.flatten_cons, List.length_append, List.length_cons] at ih ⊢
    rw [hb b (List.mem_cons_self _ _), ih (fun x hx => hb x (List.mem_cons_of_mem _ hx))]
    ring

theorem xorBlock_cancel : ∀ (a b : List Nat), a.length = b.length →
    xorBlock (xorBlock a b) b = a := by
  intro a
  induction a with
  | nil => intro b _; simp [xorBlock]
  | cons x xs ih =>
    intro b h
    cases b with
    | nil => simp at h
    | cons y ys =>
      simp only [xorBlock, List.zipWith_cons_cons]
      rw [Nat.xor_cancel_right]
      have hrec := ih ys (by simpa using h)
      simp only [xorBlock] at hrec
      rw [hrec]

theorem xorBlock_length (a b : List Nat) : (xorBlock a b).length = min a.length b.length := by
  simp [xorBlock]

theorem xorBlock_lt : ∀ (a b : List Nat), (∀ x ∈ a, x < 256) → (∀ x ∈ b, x < 256) →
    ∀ x ∈ xorBlock a b, x < 256 := by
  intro a
  induction a with
  | nil => intro b _ _ x hx; simp [xorBlock] at hx
  | cons p ps ih =>
    intro b ha hb x hx
    cases b with
    | nil => simp [xorBlock] at hx
    | cons q qs =>
      simp only [xorBlock, List.zipWith_cons_cons, List.mem_cons] at hx
      rcases hx with rfl | hx
      · have h1 : p < 2 ^ 8 := ha p (List.mem_cons_self _ _)
        have h2 : q < 2 ^ 8 := hb q (List.mem_cons_self _ _)
        exact Nat.xor_lt_two_pow h1 h2
      · exact ih qs (fun y hy => ha y (List.mem_cons_of_mem _ hy))
          (fun y hy => hb y (List.mem_cons_of_mem _ hy)) x hx

theorem cbcEncBlocks_length (E : List Nat → List Nat) :
    ∀ (bs : List (List Nat)) (prev : List Nat), (cbcEncBlocks E prev bs).length = bs.length := by
  intro bs
  induction bs with
  | nil => intro prev; rfl
  | cons b bs ih => intro prev; simp only [cbcEncBlocks, List.length_cons, ih]

theorem cbcEncBlocks_good (E : List Nat → List Nat)
    (hE : ∀ b, b.length = 16 → (∀ x ∈ b, x < 256) → (E b).length = 16 ∧ ∀ x ∈ E b, x < 256) :
    ∀ (bs : List (List Nat)) (prev : List Nat),
      prev.length = 16 → (∀ x ∈ prev, x < 256) →
      (∀ b ∈ bs, b.length = 16 ∧ ∀ x ∈ b, x < 256) →
      ∀ cb ∈ cbcEncBlocks E prev bs, cb.length = 16 ∧ ∀ x ∈ cb, x < 256 := by
  intro bs
  induction bs with
  | nil => intro prev _ _ _ cb hcb; simp [cbcEncBlocks] at hcb
  | cons b bs ih =>
    intro prev hp hpB hbs cb hcb
    have hb0 := hbs b (List.mem_cons_self _ _)
    have hxlen : (xorBlock b prev).length = 16 := by
      rw [xorBlock_length, hb0.1, hp]; simp
    have hxB : ∀ x ∈ xorBlock b prev, x < 256 := xorBlock_lt b prev hb0.2 hpB
    have hEb := hE (xorBlock b prev) hxlen hxB
    simp only [cbcEncBlocks, List.mem_cons] at hcb
    rcases hcb with rfl | hcb
    · exact hEb
    · exact ih (E (xorBlock b prev)) hEb.1 hEb.2
        (fun y hy => hbs y (List.mem_cons_of_mem _ hy)) cb hcb

theorem cbcDec_cbcEnc (E D : List Nat → List Nat)
    (hE : ∀ b, b.length = 16 → (∀ x ∈ b, x < 256) → (E b).length = 16 ∧ ∀ x ∈ E b, x < 256)
    (hD : ∀ b, D (E b) = b) :
    ∀ (bs : List (List Nat)) (prev : List Nat),
      prev.length = 16 → (∀ x ∈ prev, x < 256) →
      (∀ b ∈ bs, b.length = 16 ∧ ∀ x ∈ b, x < 256) →
      cbcDecBlocks D prev (cbcEncBlocks E prev bs) = bs := by
  intro bs
  induction bs with
  | nil => intro prev _ _ _; rfl
  | cons b bs ih =>
    intro prev hp hpB hbs
    have hb0 := hbs b (List.mem_cons_self _ _)
    have hxlen : (xorBlock b prev).length = 16 := by
      rw [xorBlock_length, hb0.1, hp]; simp
    have hxB := xorBlock_lt b prev hb0.2 hpB
    have hEb := hE (xorBlock b prev) hxlen hxB
    simp only [cbcEncBlocks, cbcDecBlocks]
    rw [hD (xorBlock b prev)]
    rw [xorBlock_cancel b prev (by rw [hb0.1, hp])]
    rw [ih (E (xorBlock b prev)) hEb.1 hEb.2 (fun y hy => hbs y (List.mem_cons_of_mem _ hy))]



theorem decrypt_encrypt_core (E D : List Nat → List Nat) (iv : List Nat)
    (hE : ∀ b, b.length = 16 → (∀ x ∈ b, x < 256) → (E b).length = 16 ∧ ∀ x ∈ E b, x < 256)
    (hD : ∀ b, D (E b) = b)
    (hiv : iv.length = 16) (hivB : ∀ x ∈ iv, x < 256) (s : String) :
    decrypt D (encrypt E iv s) = s := by
  have hptMod : (pkcs7Pad (utf8Encode s.data)).length % 16 = 0 := pkcs7Pad_length_mod _
  have hptNe : pkcs7Pad (utf8Encode s.data) ≠ [] := pkcs7Pad_ne_nil _
  have hptB : ∀ x ∈ pkcs7Pad (utf8Encode s.data), x < 256 :=
    pkcs7Pad_lt _ (utf8Encode_lt s.data)
  have hbl : ∀ b ∈ toBlocks (pkcs7Pad (utf8Encode s.data)),
      b.length = 16 ∧ ∀ x ∈ b, x < 256 := by
    intro b hb
    refine ⟨toBlocksAux_length16 _ _ le_rfl hptMod b hb, ?_⟩
    intro x hx
    exact hptB x (toBlocksAux_subset _ _ b hb x hx)
  have hgood : ∀ cb ∈ cbcEncBlocks E iv (toBlocks (pkcs7Pad (utf8Encode s.data))),
      cb.length = 16 ∧ ∀ x ∈ cb, x < 256 :=
    cbcEncBlocks_good E hE _ iv hiv hivB hbl
  have hctB : ∀ x ∈ fromBlocks (cbcEncBlocks E iv (toBlocks (pkcs7Pad (utf8Encode s.data)))),
      x < 256 := by
    intro x hx
    simp only [fromBlocks, List.mem_flatten] at hx
    obtain ⟨cb, hcb, hxc⟩ := hx
    exact (hgood cb hcb).2 x hxc
  have hctLen : (fromBlocks (cbcEncBlocks E iv (toBlocks (pkcs7Pad (utf8Encode s.data))))).length
      = 16 * (toBlocks (pkcs7Pad (utf8Encode s.data))).length := by
    rw [fromBlocks_length _ (fun cb hcb => (hgood cb hcb).1), cbcEncBlocks_length]
  have hblNe : (toBlocks (pkcs7Pad (utf8Encode s.data))).length ≠ 0 := by
    intro hcontra
    exact toBlocks_ne_nil _ hptNe (List.length_eq_zero.mp hcontra)
  have hdata : (encrypt E iv s).data =
      hexChars iv ++ ':' ::
        hexChars (fromBlocks (cbcEncBlocks E iv (toBlocks (pkcs7Pad (utf8Encode s.data))))) := by
    simp only [encrypt, String.data_append]
    simp [List.append_assoc]
  have hsplit : splitOnColon (encrypt E iv s).data =
      [hexChars iv,
       hexChars (fromBlocks (cbcEncBlocks E iv (toBlocks (pkcs7Pad (utf8Encode s.data)))))] := by
    rw [hdata, splitOnColon_append _ _ (colon_not_mem_hexChars iv hivB),
      splitOnColon_no_colon _ (colon_not_mem_hexChars _ hctB)]
  simp only [decrypt, tryDecrypt, hsplit]
  simp only [List.getElem?_cons_succ, List.getElem?_cons_zero, List.headD_cons]
  rw [nodeHexDecode_hexChars iv hivB, nodeHexDecode_hexChars _ hctB]
  rw [if_pos hiv]
  rw [if_pos (by constructor <;> omega)]
  rw [toBlocks_fromBlocks _ (fun cb hcb => (hgood cb hcb).1)]
  rw [cbcDec_cbcEnc E D hE hD _ iv hiv hivB hbl]
  rw [fromBlocks_toBlocks]
  rw [pkcs7Unpad_pkcs7Pad]
  simp only [utf8Decode_encode]



theorem encrypt_ne_empty (E : List Nat → List Nat) (iv : List Nat) (t : String) :
    encrypt E iv t ≠ "" := by
  intro h
  have h2 := congrArg String.data h
  simp only [encrypt, String.data_append] at h2
  have h3 := congrArg List.length h2
  simp only [List.length_append] at h3
  simp at h3

theorem saveProfile_getProfile_core (E D : List Nat → List Nat) (iv : List Nat)
    (hE : ∀ b, b.length = 16 → (∀ x ∈ b, x < 256) → (E b).length = 16 ∧ ∀ x ∈ E b, x < 256)
    (hD : ∀ b, D (E b) = b)
    (hiv : iv.length = 16) (hivB : ∀ x ∈ iv, x < 256)
    (st : ProfileConfig) (henc : st.settings.encryptionEnabled = true)
    (p : Profile) (now : String) :
    getProfile D (saveProfile E iv now st p) p.name = some { p with updatedAt := now } := by
  obtain ⟨nm, ds, pv, bu, mo, ak, ck, ex, ca, ua⟩ := p
  cases hak : ak with
  | none =>
    simp [saveProfile, getProfile, truthy, objLookup_objSet_self]
  | some k =>
    by_cases hk : k = ""
    · subst hk
      simp [saveProfile, getProfile, truthy, objLookup_objSet_self]
    · have hne : encrypt E iv k ≠ "" := encrypt_ne_empty E iv k
      have hbne : (k != "") = true := by simpa using hk
      have hben : (encrypt E iv k != "") = true := by simpa using hne
      simp only [saveProfile, getProfile, truthy, henc, hbne, hben, Bool.and_self, if_true,
        objLookup_objSet_self, Option.getD_some]
      rw [decrypt_encrypt_core E D iv hE hD hiv hivB k]

/-! ## Claim C6: the literal §8 profile rendered for the POSIX dialects -/

/-- C6: for the literal profile `{baseUrl:"https://api.x.com", apiKey:"sk-1'2",
model:"m1", clearAnthropicKey:true}` named `work`, the activation script for
both POSIX dialects (bash and zsh) contains the exact lines
`export ANTHROPIC_BASE_URL='https://api.x.com'`,
`export ANTHROPIC_AUTH_TOKEN='sk-1'\''2'`, `export ANTHROPIC_MODEL='m1'`,
`unset ANTHROPIC_API_KEY` and `export CCX_ACTIVE_PROFILE='work'`, with the
single quote in the credential escaped as quote-backslash-quote-quote. -/
theorem literal_profile_posix_lines :
    (("export ANTHROPIC_BASE_URL=" ++ sq ++ "https://api.x.com" ++ sq)
        ∈ scriptLines pLiteral ShellType.bash tNow ∧
      ("export ANTHROPIC_AUTH_TOKEN=" ++ sq ++ "sk-1" ++ sq ++ "\\" ++ sq ++ sq ++ "2" ++ sq)
        ∈ scriptLines pLiteral ShellType.bash tNow ∧
      ("export ANTHROPIC_MODEL=" ++ sq ++ "m1" ++ sq)
        ∈ scriptLines pLiteral ShellType.bash tNow ∧
      "unset ANTHROPIC_API_KEY" ∈ scriptLines pLiteral ShellType.bash tNow ∧
      ("export CCX_ACTIVE_PROFILE=" ++ sq ++ "work" ++ sq)
        ∈ scriptLines pLiteral ShellType.bash tNow) ∧
    (("export ANTHROPIC_BASE_URL=" ++ sq ++ "https://api.x.com" ++ sq)
        ∈ scriptLines pLiteral ShellType.zsh tNow ∧
      ("export ANTHROPIC_AUTH_TOKEN=" ++ sq ++ "sk-1" ++ sq ++ "\\" ++ sq ++ sq ++ "2" ++ sq)
        ∈ scriptLines pLiteral ShellType.zsh tNow ∧
      ("export ANTHROPIC_MODEL=" ++ sq ++ "m1" ++ sq)
        ∈ scriptLines pLiteral ShellType.zsh tNow ∧
      "unset ANTHROPIC_API_KEY" ∈ scriptLines pLiteral ShellType.zsh tNow ∧
      ("export CCX_ACTIVE_PROFILE=" ++ sq ++ "work" ++ sq)
        ∈ scriptLines pLiteral ShellType.zsh tNow) := by
  decide

/-! ## Claim C8: the PowerShell reset script -/

/-- C8: `generateResetScript` for the host-scripting (PowerShell) dialect is
exactly one `Remove-Item Env:\VAR -ErrorAction SilentlyContinue` statement for
each of the four tracked variables, in order, and nothing else. -/
theorem generateReset_powershell_exact :
    generateResetScript ShellType.powershell =
      "Remove-Item Env:\\ANTHROPIC_BASE_URL -ErrorAction SilentlyContinue\n" ++
      "Remove-Item Env:\\ANTHROPIC_AUTH_TOKEN -ErrorAction SilentlyContinue\n" ++
      "Remove-Item Env:\\ANTHROPIC_MODEL -ErrorAction SilentlyContinue\n" ++
      "Remove-Item Env:\\CCX_ACTIVE_PROFILE -ErrorAction SilentlyContinue" := by
  decide

/-! ## Claims C9 and C10: shell detection -/

/-- C9: `detectShell` checks the resolved shell-path value for
dialect-identifying substrings in priority order — fish, then zsh, then bash,
then powershell/pwsh — and with no substring match returns powershell exactly
when the platform is `win32` and bash otherwise; it is total by construction. -/
theorem detectShell_priority (envShell envComSpec : Option String) (platform : String) :
    (strIncludes (jsOr envShell (jsOr envComSpec "")) "fish" = true →
      detectShell envShell envComSpec platform = ShellType.fish) ∧
    (strIncludes (jsOr envShell (jsOr envComSpec "")) "fish" = false →
      strIncludes (jsOr envShell (jsOr envComSpec "")) "zsh" = true →
      detectShell envShell envComSpec platform = ShellType.zsh) ∧
    (strIncludes (jsOr envShell (jsOr envComSpec "")) "fish" = false →
      strIncludes (jsOr envShell (jsOr envComSpec "")) "zsh" = false →
      strIncludes (jsOr envShell (jsOr envComSpec "")) "bash" = true →
      detectShell envShell envComSpec platform = ShellType.bash) ∧
    (strIncludes (jsOr envShell (jsOr envComSpec "")) "fish" = false →
      strIncludes (jsOr envShell (jsOr envComSpec "")) "zsh" = false →
      strIncludes (jsOr envShell (jsOr envComSpec "")) "bash" = false →
      (strIncludes (jsOr envShell (jsOr envComSpec "")) "powershell" ||
        strIncludes (jsOr envShell (jsOr envComSpec "")) "pwsh") = true →
      detectShell envShell envComSpec platform = ShellType.powershell) ∧
    (strIncludes (jsOr envShell (jsOr envComSpec "")) "fish" = false →
      strIncludes (jsOr envShell (jsOr envComSpec "")) "zsh" = false →
      strIncludes (jsOr envShell (jsOr envComSpec "")) "bash" = false →
      (strIncludes (jsOr envShell (jsOr envComSpec "")) "powershell" ||
        strIncludes (jsOr envShell (jsOr envComSpec "")) "pwsh") = false →
      platform = "win32" →
      detectShell envShell envComSpec platform = ShellType.powershell) ∧
    (strIncludes (jsOr envShell (jsOr envComSpec "")) "fish" = false →
      strIncludes (jsOr envShell (jsOr envComSpec "")) "zsh" = false →
      strIncludes (jsOr envShell (jsOr envComSpec "")) "bash" = false →
      (strIncludes (jsOr envShell (jsOr envComSpec "")) "powershell" ||
        strIncludes (jsOr envShell (jsOr envComSpec "")) "pwsh") = false →
      platform ≠ "win32" →
      detectShell envShell envComSpec platform = ShellType.bash) := by
  refine ⟨?_, ?_, ?_, ?_, ?_, ?_⟩
  · intro h1; simp [detectShell, h1]
  · intro h1 h2; simp [detectShell, h1, h2]
  · intro h1 h2 h3; simp [detectShell, h1, h2, h3]
  · intro h1 h2 h3 h4; simp [detectShell, h1, h2, h3, h4]
  · intro h1 h2 h3 h4 h5; simp [detectShell, h1, h2, h3, h4, h5]
  · intro h1 h2 h3 h4 h5; simp [detectShell, h1, h2, h3, h4, h5]

/-- Witness for C9: a shell path containing `fish` is classified as fish. -/
theorem detectShell_priority_witness :
    detectShell (some "/usr/bin/fish") none "linux" = ShellType.fish :=
  (detectShell_priority (some "/usr/bin/fish") none "linux").1 (by decide)

/-- C10: `detectShell` never returns the legacy `cmd` dialect, for any value
of the ambient shell-path variables (including one containing `cmd`, such as
`ComSpec`) and any platform. -/
theorem detectShell_never_cmd (envShell envComSpec : Option String) (platform : String) :
    detectShell envShell envComSpec platform ≠ ShellType.cmd := by
  simp only [detectShell]
  repeat' split
  all_goals decide

/-! ## Claim C2: encrypt/decrypt round-trip -/

/-- C2: for every credential string (including the empty string and
non-ASCII text) and every 16-byte IV chosen at encryption time,
`decrypt (encrypt s) = s`, where the AES-256 block maps under the
machine-derived key are any mutually inverse, length- and byte-range-
preserving pair `E`/`D` (the contract of the Node `crypto` block cipher
primitive). -/
theorem decrypt_encrypt_roundtrip (E D : List Nat → List Nat) (iv : List Nat)
    (hE : ∀ b, b.length = 16 → (∀ x ∈ b, x < 256) → (E b).length = 16 ∧ ∀ x ∈ E b, x < 256)
    (hD : ∀ b, D (E b) = b)
    (hiv : iv.length = 16) (hivB : ∀ x ∈ iv, x < 256) (s : String) :
    decrypt D (encrypt E iv s) = s :=
  decrypt_encrypt_core E D iv hE hD hiv hivB s

/-- Witness for C2: a concrete non-ASCII credential (with 2-, 3- and 4-byte
UTF-8 characters) and the empty credential both round-trip under the identity
block-cipher pair and the zero IV. -/
theorem decrypt_encrypt_roundtrip_witness :
    decrypt id (encrypt id ivZero "café-中-🙂") = "café-中-🙂" ∧
    decrypt id (encrypt id ivZero "") = "" :=
  ⟨decrypt_encrypt_roundtrip id id ivZero (fun _ hl hb => ⟨hl, hb⟩) (fun _ => rfl)
      (by decide) (by decide) _,
   decrypt_encrypt_roundtrip id id ivZero (fun _ hl hb => ⟨hl, hb⟩) (fun _ => rfl)
      (by decide) (by decide) _⟩

/-! ## Claim C3: decryption failure falls back to the input -/

/-- C3: whenever the decryption pipeline fails (missing delimiter, bad IV,
bad ciphertext length, bad padding — every thrown error is a `none` of
`tryDecrypt`), `decrypt` does not raise and returns the input unchanged. -/
theorem decrypt_failure_returns_input (D : List Nat → List Nat) (r : String)
    (hfail : tryDecrypt D r = none) : decrypt D r = r := by
  simp [decrypt, hfail]

/-- Witness for C3: decryption of `not-a-valid-record` fails and the string
comes back unchanged. -/
theorem decrypt_failure_returns_input_witness :
    tryDecrypt id "not-a-valid-record" = none ∧
    decrypt id "not-a-valid-record" = "not-a-valid-record" :=
  ⟨by decide, decrypt_failure_returns_input id "not-a-valid-record" (by decide)⟩

/-! ## Claim C4: saveProfile / getProfile round-trip -/

/-- C4: with encryption enabled (the store default, never disabled by any
code path), `saveProfile p` followed by `getProfile p.name` returns `p` with
only `updatedAt` changed — stamped with the save-time clock value — and in
particular the credential comes back as the original plaintext even though it
is stored encrypted; the cipher primitive is modelled as in C2. -/
theorem saveProfile_getProfile_roundtrip (E D : List Nat → List Nat) (iv : List Nat)
    (hE : ∀ b, b.length = 16 → (∀ x ∈ b, x < 256) → (E b).length = 16 ∧ ∀ x ∈ E b, x < 256)
    (hD : ∀ b, D (E b) = b)
    (hiv : iv.length = 16) (hivB : ∀ x ∈ iv, x < 256)
    (st : ProfileConfig) (henc : st.settings.encryptionEnabled = true)
    (p : Profile) (now : String) :
    getProfile D (saveProfile E iv now st p) p.name = some { p with updatedAt := now } :=
  saveProfile_getProfile_core E D iv hE hD hiv hivB st henc p now

/-- Witness for C4: saving the concrete profile `pStored` (credential
`sk-test-123`) into `stOne` and reading it back yields the profile unchanged
except for the fresh `updatedAt` stamp. -/
theorem saveProfile_getProfile_roundtrip_witness :
    getProfile id (saveProfile id ivZero "2025-02-02T00:00:00.000Z" stOne pStored) pStored.name
      = some { pStored with updatedAt := "2025-02-02T00:00:00.000Z" } :=
  saveProfile_getProfile_roundtrip id id ivZero (fun _ hl hb => ⟨hl, hb⟩) (fun _ => rfl)
    (by decide) (by decide) stOne rfl pStored "2025-02-02T00:00:00.000Z"

end Ccx
